import Mathlib

/-!
Verification development for the `inspect` entity-level code-review triage
engine (crate `inspect-core`).  The Rust sources are embedded shallowly:

* enums and structs of `types.rs` become Lean inductives / structures;
* `f64` arithmetic of the risk scorer (`risk.rs`) is embedded over `ℝ`
  (IEEE rounding is out of scope; sign, branch structure and clamping are
  preserved), with an additional `Option ℝ`-valued model in which `none`
  stands for a NaN or non-finite value, used to reason about the
  `partial_cmp(..).unwrap()` in `analyze.rs`;
* `classify.rs`, `untangle.rs` and the phase-4 pipeline of `analyze.rs`
  are translated function by function;
* components from the external `sem_core` crate (git bridge, semantic
  differ, entity graph) are not part of this repository's sources; their
  outcomes are abstracted as inputs (`AnalyzeEnv`, `GraphModel`), and the
  iteration order of Rust's randomized `HashMap` is an explicit `order`
  parameter wherever the source iterates over one.
-/

namespace Inspect

/-- Change type of a semantic change (`sem_core::model::change::ChangeType`,
as used throughout `inspect-core`). -/
inductive ChangeType where
  | Added
  | Deleted
  | Modified
  | Moved
  | Renamed
deriving DecidableEq, Repr

/-- ConGra change classification taxonomy (`types.rs`).  The source's
`Syntax` variants are rendered as `Syn` here (`Syntax` is not a usable
name in this development); the correspondence is
Text ↦ Text, Syntax ↦ Syn, Functional ↦ Functional,
TextSyntax ↦ TextSyn, TextFunctional ↦ TextFunctional,
SyntaxFunctional ↦ SynFunctional, TextSyntaxFunctional ↦ TextSynFunctional. -/
inductive ChangeClassification where
  | Text
  | Syn
  | Functional
  | TextSyn
  | TextFunctional
  | SynFunctional
  | TextSynFunctional
deriving DecidableEq, Repr

/-- Risk level for a changed entity (`types.rs`). -/
inductive RiskLevel where
  | Low
  | Medium
  | High
  | Critical
deriving DecidableEq, Repr

/-- Review information for a single changed entity (`types.rs`,
struct `EntityReview`).  `f64` is embedded as `ℝ`. -/
structure EntityReview where
  entity_id : String
  entity_name : String
  entity_type : String
  file_path : String
  change_type : ChangeType
  classification : ChangeClassification
  risk_score : ℝ
  risk_level : RiskLevel
  blast_radius : Nat
  dependent_count : Nat
  dependency_count : Nat
  is_public_api : Bool
  structural_change : Option Bool
  group_id : Nat
  start_line : Nat
  end_line : Nat

/-- Modelled from the spec: `sem_core`'s `SemanticChange` record (spec §3),
whose definition lives outside this repository; the fields are the ones
its consumers and the tests in `classify.rs` use. -/
structure SemanticChange where
  id : String
  entity_id : String
  change_type : ChangeType
  entity_type : String
  entity_name : String
  file_path : String
  old_file_path : Option String
  before_content : Option String
  after_content : Option String
  commit_sha : Option String
  author : Option String
  timestamp : Option String
  structural_change : Option Bool
deriving DecidableEq, Repr

/-- A logical group of related changes (`types.rs`, struct `ChangeGroup`). -/
structure ChangeGroup where
  id : Nat
  label : String
  entity_ids : List String
deriving DecidableEq, Repr

/-- Risk breakdown counters (`types.rs`). -/
structure RiskBreakdown where
  critical : Nat
  high : Nat
  medium : Nat
  low : Nat
deriving DecidableEq, Repr

/-- Classification breakdown counters (`types.rs`). -/
structure ClassificationBreakdown where
  text : Nat
  syn : Nat
  functional : Nat
  mixed : Nat
deriving DecidableEq, Repr

/-- Change type breakdown counters (`types.rs`). -/
structure ChangeTypeBreakdown where
  added : Nat
  modified : Nat
  deleted : Nat
  moved : Nat
  renamed : Nat
deriving DecidableEq, Repr

/-- Summary statistics for a review (`types.rs`, struct `ReviewStats`). -/
structure ReviewStats where
  total_entities : Nat
  by_risk : RiskBreakdown
  by_classification : ClassificationBreakdown
  by_change_type : ChangeTypeBreakdown
deriving DecidableEq, Repr

/-- Complete review result (`types.rs`, struct `ReviewResult`). -/
structure ReviewResult where
  entity_reviews : List EntityReview
  groups : List ChangeGroup
  stats : ReviewStats
  changes : List SemanticChange

/-- Classification weight table (`risk.rs`, fn `classification_weight`). -/
def classification_weight : ChangeClassification → ℝ
  | .Text => 0.0
  | .Syn => 0.08
  | .Functional => 0.22
  | .TextSyn => 0.1
  | .TextFunctional => 0.22
  | .SynFunctional => 0.25
  | .TextSynFunctional => 0.28

/-- Change type weight table (`risk.rs`, fn `change_type_weight`). -/
def change_type_weight : ChangeType → ℝ
  | .Deleted => 0.12
  | .Modified => 0.08
  | .Renamed => 0.04
  | .Moved => 0.0
  | .Added => 0.02

/-- Risk score for an entity review (`risk.rs`, fn `compute_risk_score`).
The sequence of `score += ..` statements is rendered as a `let` chain in
the source's order; `f64` becomes `ℝ`. -/
noncomputable def compute_risk_score (review : EntityReview) (total_entities : Nat) : ℝ :=
  let score : ℝ := 0.0
  let score := score + classification_weight review.classification
  let score := score + change_type_weight review.change_type
  let score := if review.is_public_api then score + 0.12 else score
  let score :=
    if total_entities > 0 ∧ review.blast_radius > 0 then
      let blast_ratio : ℝ := (review.blast_radius : ℝ) / (total_entities : ℝ)
      score + Real.sqrt blast_ratio * 0.30
    else score
  let score :=
    if review.dependent_count > 0 then
      score + Real.log (1.0 + (review.dependent_count : ℝ)) * 0.15
    else score
  let score := if review.structural_change = some false then score * 0.2 else score
  min score 1.0

/-- Map risk score to risk level (`risk.rs`, fn `score_to_level`). -/
noncomputable def score_to_level (score : ℝ) : RiskLevel :=
  if score ≥ 0.7 then .Critical
  else if score ≥ 0.5 then .High
  else if score ≥ 0.3 then .Medium
  else .Low

/-- Classification weights exactly as the spec's table (§4.4) lists them. -/
def specClassificationWeight : ChangeClassification → ℝ
  | .Text => 0.00
  | .Syn => 0.08
  | .Functional => 0.22
  | .TextSyn => 0.10
  | .TextFunctional => 0.22
  | .SynFunctional => 0.25
  | .TextSynFunctional => 0.28

/-- Change-type weights exactly as the spec's table (§4.4) lists them. -/
def specChangeTypeWeight : ChangeType → ℝ
  | .Deleted => 0.12
  | .Modified => 0.08
  | .Renamed => 0.04
  | .Moved => 0.00
  | .Added => 0.02

/-- The spec's risk formula (§4.4), written as the single additive
expression of the spec text, then discounted, then clamped. -/
noncomputable def riskScoreSpec (review : EntityReview) (total_entities : Nat) : ℝ :=
  let score : ℝ :=
    specClassificationWeight review.classification
    + specChangeTypeWeight review.change_type
    + (if review.is_public_api then (0.12 : ℝ) else 0)
    + (if review.blast_radius > 0 ∧ total_entities > 0 then
        Real.sqrt ((review.blast_radius : ℝ) / (total_entities : ℝ)) * 0.30
      else 0)
    + (if review.dependent_count > 0 then
        Real.log (1 + (review.dependent_count : ℝ)) * 0.15
      else 0)
  let score := if review.structural_change = some false then score * 0.2 else score
  min score 1.0

/-- Turning a conditional increment into the sum of an unconditional base
and a conditional term. -/
lemma ite_add_right (c : Prop) [Decidable c] (x a : ℝ) :
    (if c then x + a else x) = x + if c then a else 0 := by
  split <;> simp

/-- The source's classification weights coincide with the spec's table. -/
lemma classification_weight_eq (c : ChangeClassification) :
    classification_weight c = specClassificationWeight c := by
  cases c <;> norm_num [classification_weight, specClassificationWeight]

/-- The source's change-type weights coincide with the spec's table. -/
lemma change_type_weight_eq (ct : ChangeType) :
    change_type_weight ct = specChangeTypeWeight ct := by
  cases ct <;> norm_num [change_type_weight, specChangeTypeWeight]

/-- The source's chained score and the spec's additive formula agree. -/
theorem compute_risk_score_eq_spec (review : EntityReview) (total_entities : Nat) :
    compute_risk_score review total_entities = riskScoreSpec review total_entities := by
  have hand : (total_entities > 0 ∧ review.blast_radius > 0) ↔
      (review.blast_radius > 0 ∧ total_entities > 0) := and_comm
  have h1 : (1.0 : ℝ) = 1 := by norm_num
  have h0 : (0.0 : ℝ) = 0 := by norm_num
  simp only [compute_risk_score, riskScoreSpec, ite_add_right, hand, h1, h0, zero_add,
    classification_weight_eq, change_type_weight_eq]

lemma specClassificationWeight_nonneg (c : ChangeClassification) :
    0 ≤ specClassificationWeight c := by
  cases c <;> norm_num [specClassificationWeight]

lemma specClassificationWeight_le (c : ChangeClassification) :
    specClassificationWeight c ≤ 0.28 := by
  cases c <;> norm_num [specClassificationWeight]

lemma specChangeTypeWeight_nonneg (ct : ChangeType) :
    0 ≤ specChangeTypeWeight ct := by
  cases ct <;> norm_num [specChangeTypeWeight]

lemma specChangeTypeWeight_le (ct : ChangeType) :
    specChangeTypeWeight ct ≤ 0.12 := by
  cases ct <;> norm_num [specChangeTypeWeight]

/-- The additive base of the spec formula, before discount and clamp. -/
noncomputable def riskBase (review : EntityReview) (total_entities : Nat) : ℝ :=
  specClassificationWeight review.classification
  + specChangeTypeWeight review.change_type
  + (if review.is_public_api then (0.12 : ℝ) else 0)
  + (if review.blast_radius > 0 ∧ total_entities > 0 then
      Real.sqrt ((review.blast_radius : ℝ) / (total_entities : ℝ)) * 0.30
    else 0)
  + (if review.dependent_count > 0 then
      Real.log (1 + (review.dependent_count : ℝ)) * 0.15
    else 0)

lemma riskScoreSpec_eq_base (review : EntityReview) (total_entities : Nat) :
    riskScoreSpec review total_entities =
      min (if review.structural_change = some false then
            riskBase review total_entities * 0.2
          else riskBase review total_entities) 1.0 := by
  rfl

lemma riskBase_nonneg (review : EntityReview) (total_entities : Nat) :
    0 ≤ riskBase review total_entities := by
  unfold riskBase
  have h3 : (0 : ℝ) ≤ if review.is_public_api then (0.12 : ℝ) else 0 := by
    split <;> norm_num
  have h4 : (0 : ℝ) ≤ if review.blast_radius > 0 ∧ total_entities > 0 then
      Real.sqrt ((review.blast_radius : ℝ) / (total_entities : ℝ)) * 0.30 else 0 := by
    split
    · exact mul_nonneg (Real.sqrt_nonneg _) (by norm_num)
    · exact le_refl 0
  have h5 : (0 : ℝ) ≤ if review.dependent_count > 0 then
      Real.log (1 + (review.dependent_count : ℝ)) * 0.15 else 0 := by
    split
    · refine mul_nonneg (Real.log_nonneg ?_) (by norm_num)
      have := @Nat.cast_nonneg ℝ _ review.dependent_count
      linarith
    · exact le_refl 0
  have h1 := specClassificationWeight_nonneg review.classification
  have h2 := specChangeTypeWeight_nonneg review.change_type
  exact add_nonneg (add_nonneg (add_nonneg (add_nonneg h1 h2) h3) h4) h5

lemma riskScoreSpec_nonneg (review : EntityReview) (total_entities : Nat) :
    0 ≤ riskScoreSpec review total_entities := by
  rw [riskScoreSpec_eq_base]
  refine le_min ?_ (by norm_num)
  split
  · exact mul_nonneg (riskBase_nonneg _ _) (by norm_num)
  · exact riskBase_nonneg _ _

lemma riskScoreSpec_le_one (review : EntityReview) (total_entities : Nat) :
    riskScoreSpec review total_entities ≤ 1 := by
  rw [riskScoreSpec_eq_base]
  exact le_trans (min_le_right _ _) (by norm_num)

/-- C1: `compute_risk_score` returns exactly the spec's formula —
classification weight plus change-type weight plus public-API boost plus
sqrt-scaled blast radius plus log-scaled dependent count, discounted by
0.2 when `structural_change == Some(false)` and clamped to at most 1.0,
with the weight tables exactly as the spec lists them. -/
theorem c1_risk_score_formula (review : EntityReview) (total_entities : Nat) :
    compute_risk_score review total_entities = riskScoreSpec review total_entities :=
  compute_risk_score_eq_spec review total_entities

/-- C4: the risk score always lies in the closed interval `[0, 1]`. -/
theorem c4_risk_score_in_unit_interval (review : EntityReview) (total_entities : Nat) :
    0 ≤ compute_risk_score review total_entities
      ∧ compute_risk_score review total_entities ≤ 1 := by
  rw [compute_risk_score_eq_spec]
  exact ⟨riskScoreSpec_nonneg review total_entities, riskScoreSpec_le_one review total_entities⟩

lemma score_to_level_eq_low (score : ℝ) (h : score < 0.3) :
    score_to_level score = RiskLevel.Low := by
  unfold score_to_level
  rw [if_neg (by norm_num; linarith), if_neg (by norm_num; linarith),
    if_neg (by norm_num; linarith)]

/-- C5: with `structural_change == Some(false)` and no graph impact the
score stays strictly below 0.3, hence the level is `Low`. -/
theorem c5_cosmetic_no_impact_low (review : EntityReview) (total_entities : Nat)
    (hs : review.structural_change = some false)
    (hb : review.blast_radius = 0)
    (hd : review.dependent_count = 0) :
    compute_risk_score review total_entities < 0.3
      ∧ score_to_level (compute_risk_score review total_entities) = RiskLevel.Low := by
  have hscore : compute_risk_score review total_entities < 0.3 := by
    rw [compute_risk_score_eq_spec, riskScoreSpec_eq_base]
    have hbase : riskBase review total_entities ≤ 0.52 := by
      unfold riskBase
      rw [if_neg (show ¬(review.blast_radius > 0 ∧ total_entities > 0) by simp [hb]),
        if_neg (show ¬(review.dependent_count > 0) by simp [hd])]
      have h1 := specClassificationWeight_le review.classification
      have h2 := specChangeTypeWeight_le review.change_type
      have h3 : (if review.is_public_api then (0.12 : ℝ) else 0) ≤ 0.12 := by
        split <;> norm_num
      linarith
    rw [if_pos hs]
    calc min (riskBase review total_entities * 0.2) 1.0
        ≤ riskBase review total_entities * 0.2 := min_le_left _ _
      _ ≤ 0.52 * 0.2 := by linarith
      _ < 0.3 := by norm_num
  exact ⟨hscore, score_to_level_eq_low _ hscore⟩

/-- A concrete cosmetic review used to witness C5. -/
def cosmeticReviewEx : EntityReview :=
  { entity_id := "test.rs::fn::foo"
    entity_name := "foo"
    entity_type := "function"
    file_path := "test.rs"
    change_type := .Modified
    classification := .Text
    risk_score := 0
    risk_level := .Low
    blast_radius := 0
    dependent_count := 0
    dependency_count := 0
    is_public_api := false
    structural_change := some false
    group_id := 0
    start_line := 1
    end_line := 10 }

/-- Witness for C5 at a concrete cosmetic review. -/
theorem c5_cosmetic_no_impact_low_witness :
    compute_risk_score cosmeticReviewEx 10 < 0.3
      ∧ score_to_level (compute_risk_score cosmeticReviewEx 10) = RiskLevel.Low :=
  c5_cosmetic_no_impact_low cosmeticReviewEx 10 rfl rfl rfl

/-- Addition on the NaN-tracking model of `f64` values: `none` stands for
NaN or a non-finite value, `some x` for the finite value `x`.  Rounding is
not modelled; the sums in `compute_risk_score` are far from `f64`'s
overflow range, so finiteness and sign are faithfully tracked. -/
def fadd : Option ℝ → Option ℝ → Option ℝ
  | some x, some y => some (x + y)
  | _, _ => none

/-- Multiplication on the NaN-tracking model. -/
def fmul : Option ℝ → Option ℝ → Option ℝ
  | some x, some y => some (x * y)
  | _, _ => none

/-- Division: `x / 0` is non-finite (infinite or NaN) for `f64`, hence
`none` in the model; the scorer only divides by a positive count. -/
noncomputable def fdiv : Option ℝ → Option ℝ → Option ℝ
  | some x, some y => if y = 0 then none else some (x / y)
  | _, _ => none

/-- Square root: `f64::sqrt` of a negative argument is NaN. -/
noncomputable def fsqrt : Option ℝ → Option ℝ
  | some x => if 0 ≤ x then some (Real.sqrt x) else none
  | none => none

/-- Natural logarithm: `f64::ln` is NaN for negative arguments and `-inf`
at zero, both non-finite, hence `none` in the model. -/
noncomputable def fln : Option ℝ → Option ℝ
  | some x => if 0 < x then some (Real.log x) else none
  | none => none

/-- Minimum with `f64::min`'s NaN handling: a NaN operand is ignored. -/
def fmin : Option ℝ → Option ℝ → Option ℝ
  | some x, some y => some (min x y)
  | some x, none => some x
  | none, some y => some y
  | none, none => none

/-- `f64::partial_cmp`: `None` exactly when an operand is NaN (the
`none` cases subsume the non-finite values the scorer can never hit). -/
noncomputable def fpCmp : Option ℝ → Option ℝ → Option Ordering
  | some x, some y => some (if x < y then .lt else if x = y then .eq else .gt)
  | _, _ => none

/-- `compute_risk_score` re-expressed over the NaN-tracking model, with
the same branch structure as `risk.rs`. -/
noncomputable def compute_risk_score_fp (review : EntityReview) (total_entities : Nat) :
    Option ℝ :=
  let score : Option ℝ := some 0.0
  let score := fadd score (some (classification_weight review.classification))
  let score := fadd score (some (change_type_weight review.change_type))
  let score := if review.is_public_api then fadd score (some 0.12) else score
  let score :=
    if total_entities > 0 ∧ review.blast_radius > 0 then
      let blast_ratio := fdiv (some (review.blast_radius : ℝ)) (some (total_entities : ℝ))
      fadd score (fmul (fsqrt blast_ratio) (some 0.30))
    else score
  let score :=
    if review.dependent_count > 0 then
      fadd score (fmul (fln (some (1.0 + (review.dependent_count : ℝ)))) (some 0.15))
    else score
  let score := if review.structural_change = some false then fmul score (some 0.2) else score
  fmin score (some 1.0)

lemma compute_risk_score_fp_eq (review : EntityReview) (total_entities : Nat) :
    compute_risk_score_fp review total_entities
      = some (compute_risk_score review total_entities) := by
  unfold compute_risk_score_fp compute_risk_score
  by_cases htb : total_entities > 0 ∧ review.blast_radius > 0
  · have ht0 : ((total_entities : ℝ)) ≠ 0 := by
      have := htb.1
      simp only [ne_eq, Nat.cast_eq_zero]
      omega
    have hratio : (0 : ℝ) ≤ (review.blast_radius : ℝ) / (total_entities : ℝ) :=
      div_nonneg (Nat.cast_nonneg _) (Nat.cast_nonneg _)
    have hln : (0 : ℝ) < 1.0 + (review.dependent_count : ℝ) := by
      have := @Nat.cast_nonneg ℝ _ review.dependent_count
      norm_num
      linarith
    by_cases hp : review.is_public_api <;>
      by_cases hd : review.dependent_count > 0 <;>
      by_cases hs : review.structural_change = some false <;>
      simp [htb, hp, hd, hs, fadd, fmul, fdiv, fsqrt, fln, fmin, ht0, hratio, hln]
  · have hln : (0 : ℝ) < 1.0 + (review.dependent_count : ℝ) := by
      have := @Nat.cast_nonneg ℝ _ review.dependent_count
      norm_num
      linarith
    by_cases hp : review.is_public_api <;>
      by_cases hd : review.dependent_count > 0 <;>
      by_cases hs : review.structural_change = some false <;>
      simp [htb, hp, hd, hs, fadd, fmul, fdiv, fsqrt, fln, fmin, hln]

/-- C9: under the NaN-tracking `f64` model the risk score is always a
finite, non-NaN value in `[0, 1]`, so `partial_cmp` on two scores is
always `Some` and the `unwrap()` in the review sort of `analyze` cannot
panic. -/
theorem c9_score_finite_sort_never_panics :
    (∀ (review : EntityReview) (total_entities : Nat),
      compute_risk_score_fp review total_entities
          = some (compute_risk_score review total_entities)
        ∧ 0 ≤ compute_risk_score review total_entities
        ∧ compute_risk_score review total_entities ≤ 1)
    ∧ ∀ (r₁ r₂ : EntityReview) (t₁ t₂ : Nat),
        (fpCmp (compute_risk_score_fp r₁ t₁) (compute_risk_score_fp r₂ t₂)).isSome = true := by
  constructor
  · intro review total_entities
    refine ⟨compute_risk_score_fp_eq review total_entities, ?_, ?_⟩
    · rw [compute_risk_score_eq_spec]
      exact riskScoreSpec_nonneg review total_entities
    · rw [compute_risk_score_eq_spec]
      exact riskScoreSpec_le_one review total_entities
  · intro r₁ r₂ t₁ t₂
    rw [compute_risk_score_fp_eq, compute_risk_score_fp_eq]
    rfl

/-- Rust's `str::lines`: split on `\n`, drop a final empty piece produced
by a trailing newline, and strip one trailing `\r` from each line. -/
def rustLines (s : String) : List String :=
  let parts := s.splitOn "\n"
  let parts :=
    match parts.getLast? with
    | some "" => parts.dropLast
    | _ => parts
  parts.map (fun l => if l.endsWith "\r" then l.dropRight 1 else l)

/-- Rust's `str::contains` for a literal pattern. -/
def containsSub (s pat : String) : Bool :=
  decide (2 ≤ (s.splitOn pat).length)

/-- Comment-line test (`classify.rs`, fn `is_comment_line`). -/
def is_comment_line (line : String) : Bool :=
  line.startsWith "//"
  || line.startsWith "/*"
  || line.startsWith "*"
  || line.startsWith "///"
  || line.startsWith "/**"
  || line.startsWith "\"\"\""
  || (line.startsWith "#" && !line.startsWith "#[")

/-- Declaration/type-signature line test (`classify.rs`, fn `is_syntax_line`). -/
def is_syntax_line (line : String) : Bool :=
  line.startsWith "fn "
  || line.startsWith "pub fn "
  || line.startsWith "pub(crate) fn "
  || line.startsWith "def "
  || line.startsWith "class "
  || line.startsWith "struct "
  || line.startsWith "enum "
  || line.startsWith "trait "
  || line.startsWith "impl "
  || line.startsWith "interface "
  || line.startsWith "type "
  || line.startsWith "pub struct "
  || line.startsWith "pub enum "
  || line.startsWith "pub trait "
  || line.startsWith "async fn "
  || line.startsWith "pub async fn "
  || line.startsWith "function "
  || line.startsWith "export function "
  || line.startsWith "export default "
  || containsSub line "->"
  || containsSub line "=> "
  || containsSub line ": &"
  || containsSub line ": Vec<"
  || containsSub line ": Option<"
  || containsSub line ": Result<"

/-- Categorize one differing line (`classify.rs`, fn `categorize_line`);
the three mutable booleans become an accumulator triple
(has_text, has_syntax, has_functional). -/
def categorize_line (line : String) (acc : Bool × Bool × Bool) : Bool × Bool × Bool :=
  if is_comment_line line then (true, acc.2.1, acc.2.2)
  else if is_syntax_line line then (acc.1, true, acc.2.2)
  else (acc.1, acc.2.1, true)

/-- Classify a semantic change (`classify.rs`, fn `classify_change`).
The Rust `HashSet`s of trimmed non-empty lines are modelled as lists;
only membership and an or-accumulating iteration are used, so duplicates
and iteration order do not affect the result. -/
def classify_change (change : SemanticChange) : ChangeClassification :=
  let before := change.before_content.getD ""
  let after := change.after_content.getD ""
  if before.isEmpty || after.isEmpty then ChangeClassification.Functional
  else if change.structural_change = some false then ChangeClassification.Text
  else
    let before_lines := rustLines before
    let after_lines := rustLines after
    let before_set := (before_lines.map (·.trim)).filter (fun l => !l.isEmpty)
    let after_set := (after_lines.map (·.trim)).filter (fun l => !l.isEmpty)
    let acc := before_set.foldl
      (fun a l => if after_set.contains l then a else categorize_line l a)
      (false, false, false)
    let acc := after_set.foldl
      (fun a l => if before_set.contains l then a else categorize_line l a)
      acc
    let acc :=
      if acc = (false, false, false) then
        if before.trim ≠ after.trim then (false, false, true) else (true, false, false)
      else acc
    match acc with
    | (true, true, true) => ChangeClassification.TextSynFunctional
    | (true, true, false) => ChangeClassification.TextSyn
    | (true, false, true) => ChangeClassification.TextFunctional
    | (false, true, true) => ChangeClassification.SynFunctional
    | (true, false, false) => ChangeClassification.Text
    | (false, true, false) => ChangeClassification.Syn
    | (false, false, true) => ChangeClassification.Functional
    | (false, false, false) => ChangeClassification.Text

/-- A change with `structural_change == Some(false)` but an absent
`before_content`: the emptiness check fires first. -/
def absentBeforeChange : SemanticChange :=
  { id := "test"
    entity_id := "test.rs::fn::foo"
    change_type := .Added
    entity_type := "function"
    entity_name := "foo"
    file_path := "test.rs"
    old_file_path := none
    before_content := none
    after_content := some "fn foo() {}"
    commit_sha := none
    author := none
    timestamp := none
    structural_change := some false }

/-- C3 counterexample: a change whose `structural_change` is `Some(false)`
but whose before side is absent is classified `Functional`, not `Text` —
the `before.is_empty() || after.is_empty()` check precedes the
`Some(false)` early return in `classify.rs`. -/
theorem c3_counterexample :
    absentBeforeChange.structural_change = some false
      ∧ classify_change absentBeforeChange ≠ ChangeClassification.Text
      ∧ classify_change absentBeforeChange = ChangeClassification.Functional := by
  have he : classify_change absentBeforeChange = ChangeClassification.Functional := rfl
  exact ⟨rfl, by rw [he]; decide, he⟩

/-- C3 (amended): `classify_change` returns `Text` for every change with
`structural_change == Some(false)` whose before and after contents are
both present and non-empty; when either side is empty or absent the
Added/Deleted check fires first and the result is `Functional`. -/
theorem c3_structural_false_is_text (change : SemanticChange)
    (hb : change.before_content.getD "" ≠ "")
    (ha : change.after_content.getD "" ≠ "")
    (hs : change.structural_change = some false) :
    classify_change change = ChangeClassification.Text := by
  unfold classify_change
  have hb' : (change.before_content.getD "").isEmpty = false := by
    rw [← Bool.not_eq_true, String.isEmpty_iff]
    exact hb
  have ha' : (change.after_content.getD "").isEmpty = false := by
    rw [← Bool.not_eq_true, String.isEmpty_iff]
    exact ha
  simp only [hb', ha', Bool.or_self, Bool.false_eq_true, if_false, hs, if_pos, if_true]

/-- A concrete non-empty cosmetic change witnessing the amended C3. -/
def cosmeticChangeEx : SemanticChange :=
  { absentBeforeChange with
    change_type := .Modified
    before_content := some "fn foo() { x + 1 }"
    after_content := some "fn foo() { x + 1 } // c" }

/-- Witness for the amended C3 at a concrete change. -/
theorem c3_structural_false_is_text_witness :
    classify_change cosmeticChangeEx = ChangeClassification.Text :=
  c3_structural_false_is_text cosmeticChangeEx (by decide) (by decide) rfl

/-- Union-Find state (`untangle.rs`, struct `UnionFind`); the two `Vec`s
become lists. -/
structure UnionFindState where
  parent : List Nat
  rank : List Nat
deriving DecidableEq, Repr

/-- `UnionFind::new(n)`. -/
def ufInit (n : Nat) : UnionFindState :=
  { parent := List.range n, rank := List.replicate n 0 }

/-- Chase parent pointers for at most `fuel` steps.  `UnionFind::find`
recurses until `parent[x] == x`; on the forests `union` maintains the
root is reached within `parent.length` steps, so running with that much
fuel computes the same root.  The path compression of the source mutates
`parent` but never changes any subsequent `find` result, so it is not
modelled. -/
def ufFindAux (p : List Nat) : Nat → Nat → Nat
  | 0, x => x
  | fuel + 1, x =>
    let px := p.getD x x
    if px = x then x else ufFindAux p fuel px

/-- `UnionFind::find`. -/
def ufFind (u : UnionFindState) (x : Nat) : Nat :=
  ufFindAux u.parent u.parent.length x

/-- `UnionFind::union` (union by rank, ties attach `rb` under `ra`). -/
def ufUnion (u : UnionFindState) (a b : Nat) : UnionFindState :=
  let ra := ufFind u a
  let rb := ufFind u b
  if ra = rb then u
  else if u.rank.getD ra 0 < u.rank.getD rb 0 then
    { u with parent := u.parent.set ra rb }
  else if u.rank.getD rb 0 < u.rank.getD ra 0 then
    { u with parent := u.parent.set rb ra }
  else
    { parent := u.parent.set rb ra, rank := u.rank.set ra (u.rank.getD ra 0 + 1) }

/-- Placeholder review used only for out-of-range list indexing, which the
untangler never performs. -/
def defaultReview : EntityReview :=
  { entity_id := ""
    entity_name := ""
    entity_type := ""
    file_path := ""
    change_type := .Modified
    classification := .Functional
    risk_score := 0
    risk_level := .Low
    blast_radius := 0
    dependent_count := 0
    dependency_count := 0
    is_public_api := false
    structural_change := none
    group_id := 0
    start_line := 0
    end_line := 0 }

/-- The `entity_id -> index` pairs in insertion order (`untangle.rs`,
`id_to_idx`); a `HashMap` keeps the last insertion for a repeated key. -/
def reviewIdPairs (reviews : List EntityReview) : List (String × Nat) :=
  (reviews.map (·.entity_id)).enum.map (fun p => (p.2, p.1))

/-- Lookup in `id_to_idx`: the last inserted binding for the key wins. -/
def reviewIdToIdx (reviews : List EntityReview) (s : String) : Option Nat :=
  ((reviewIdPairs reviews).reverse.find? (fun p => p.1 == s)).map (·.2)

/-- One iteration of the edge loop of `untangle`. -/
def ufStep (reviews : List EntityReview) (u : UnionFindState) (e : String × String) :
    UnionFindState :=
  match reviewIdToIdx reviews e.1, reviewIdToIdx reviews e.2 with
  | some a, some b => ufUnion u a b
  | _, _ => u

/-- The union-find after processing every dependency edge. -/
def buildUf (reviews : List EntityReview) (edges : List (String × String)) : UnionFindState :=
  edges.foldl (ufStep reviews) (ufInit reviews.length)

/-- Root of review index `i` in the processed union-find. -/
def ufRoot (reviews : List EntityReview) (edges : List (String × String)) (i : Nat) : Nat :=
  ufFind (buildUf reviews edges) i

/-- Member indices of the component rooted at `r`, in increasing index
order — exactly the push order of the `groups_map` loop of `untangle`. -/
def memberIdx (reviews : List EntityReview) (edges : List (String × String)) (r : Nat) :
    List Nat :=
  (List.range reviews.length).filter (fun i => ufRoot reviews edges i == r)

/-- The distinct component roots.  `untangle` stores components in a
`HashMap` keyed by root; its value iteration visits each distinct root
exactly once, in an unspecified order. -/
def ufRootList (reviews : List EntityReview) (edges : List (String × String)) : List Nat :=
  ((List.range reviews.length).map (ufRoot reviews edges)).dedup

/-- An `order` is a possible `HashMap::into_values` enumeration iff it is
a permutation of the distinct roots. -/
def validOrder (reviews : List EntityReview) (edges : List (String × String))
    (order : List Nat) : Prop :=
  order.Perm (ufRootList reviews edges)

/-- Index of the first position at which two character lists differ;
`none` when one is a prefix of the other (the `zip` in `common_prefix`
finds no mismatch).  `common_prefix` compares bytes; on the claims'
inputs every compared prefix boundary is ASCII, where byte and character
positions coincide. -/
def firstMismatch : List Char → List Char → Option Nat
  | [], _ => none
  | _, [] => none
  | x :: xs, y :: ys =>
    if x = y then (firstMismatch xs ys).map (· + 1) else some 0

/-- Index of the last occurrence of `c` (Rust's `rfind`). -/
def lastIdxOf (c : Char) (l : List Char) : Option Nat :=
  ((l.enum.filter (fun p => p.2 == c)).getLast?).map (·.1)

/-- Longest common path stem (`untangle.rs`, fn `common_prefix`): the
common prefix length of all strings, trimmed back to just after the last
`/` of the resulting prefix when it has one. -/
def commonStem (strings : List String) : String :=
  match strings with
  | [] => ""
  | first :: rest =>
    let len := rest.foldl
      (fun len s =>
        let len := min len s.length
        match firstMismatch first.data s.data with
        | some i => min len i
        | none => len)
      first.length
    let pfxChars := first.data.take len
    match lastIdxOf '/' pfxChars with
    | some pos => ⟨first.data.take (pos + 1)⟩
    | none => ⟨pfxChars⟩

/-- The spec's description of the group label for a multi-member group in
one file: the file path truncated just after its last `/` (the whole path
when it contains no `/`). -/
def truncAfterLastSlash (s : String) : String :=
  match lastIdxOf '/' s.data with
  | some pos => ⟨s.data.take (pos + 1)⟩
  | none => s

/-- Build the `ChangeGroup` for one `(group_id, root)` pair of the
component enumeration (`untangle.rs`, the `groups_map.into_values()`
closure). -/
def mkGroup (reviews : List EntityReview) (edges : List (String × String))
    (gidroot : Nat × Nat) : ChangeGroup :=
  let indices := memberIdx reviews edges gidroot.2
  let entity_ids := indices.map (fun i => (reviews.getD i defaultReview).entity_id)
  let label :=
    if entity_ids.length = 1 then
      (reviews.getD (indices.headD 0) defaultReview).entity_name
    else
      let files := indices.map (fun i => (reviews.getD i defaultReview).file_path)
      let common := commonStem files
      if common.isEmpty then toString entity_ids.length ++ " entities" else common
  { id := gidroot.1, label := label, entity_ids := entity_ids }

/-- Group comparison of `untangle`'s final sort: larger components first. -/
def sizeGE (a b : ChangeGroup) : Prop :=
  b.entity_ids.length ≤ a.entity_ids.length

instance : DecidableRel sizeGE := fun a b =>
  Nat.decLe b.entity_ids.length a.entity_ids.length

instance : IsTotal ChangeGroup sizeGE :=
  ⟨fun a b => Nat.le_total b.entity_ids.length a.entity_ids.length⟩

instance : IsTrans ChangeGroup sizeGE :=
  ⟨fun _ _ _ hab hbc => Nat.le_trans hbc hab⟩

/-- Renumber group ids from 0 after the size sort (`untangle.rs`). -/
def renumberGroups (groups : List ChangeGroup) : List ChangeGroup :=
  groups.enum.map (fun p => { p.2 with id := p.1 })

/-- `untangle` (`untangle.rs`), made deterministic by passing the
`HashMap::into_values` enumeration order of the component roots as the
explicit `order` argument; `untangle`'s possible outputs are exactly
`untangleOrd reviews edges order` for orders satisfying `validOrder`.
The stable `sort_by` becomes an insertion sort. -/
def untangleOrd (reviews : List EntityReview) (edges : List (String × String))
    (order : List Nat) : List ChangeGroup :=
  if reviews.isEmpty then []
  else
    let raw := order.enum.map (mkGroup reviews edges)
    let groups := List.insertionSort sizeGE raw
    renumberGroups groups

/-- Public-API detection (`risk.rs`, fn `is_public_api`).  Rust's Unicode
`is_uppercase` is rendered as `Char.isUpper`; the claims do not depend on
non-ASCII names. -/
def isPublicApi (entity_type : String) (entity_name : String) (content : Option String) : Bool :=
  let contentSaysPublic :=
    match content with
    | some content =>
      let first_line := (rustLines content).headD ""
      first_line.startsWith "pub "
      || first_line.startsWith "pub(crate)"
      || first_line.startsWith "export "
      || first_line.startsWith "module.exports"
    | none => false
  if contentSaysPublic then true
  else if entity_type = "function" ∨ entity_type = "method"
      ∨ entity_type = "struct" ∨ entity_type = "interface" then
    match entity_name.data.head? with
    | some first_char => first_char.isUpper
    | none => false
  else false

/-- Read-only view of the entity graph that `analyze` queries.  The graph
itself is built by the external `sem_core` crate, so it enters the model
as data: direct dependent and dependency entity ids, the capped
`impact_count`, the `entities` line-range map, and the node count. -/
structure GraphModel where
  dependents : String → List String
  dependencies : String → List String
  impactCount : String → Nat → Nat
  lineRange : String → Option (Nat × Nat)
  totalEntities : Nat

/-- Build the scored review for one change (`analyze.rs` lines 62-98):
fill the graph-derived counts, classify, then compute score and level on
the filled review. -/
noncomputable def buildReview (g : GraphModel) (change : SemanticChange) : EntityReview :=
  let dependents := g.dependents change.entity_id
  let dependencies := g.dependencies change.entity_id
  let blast_radius := g.impactCount change.entity_id 10000
  let classification := classify_change change
  let pub_api := isPublicApi change.entity_type change.entity_name change.after_content
  let lr := (g.lineRange change.entity_id).getD (0, 0)
  let review : EntityReview :=
    { entity_id := change.entity_id
      entity_name := change.entity_name
      entity_type := change.entity_type
      file_path := change.file_path
      change_type := change.change_type
      classification := classification
      risk_score := 0.0
      risk_level := .Low
      blast_radius := blast_radius
      dependent_count := dependents.length
      dependency_count := dependencies.length
      is_public_api := pub_api
      structural_change := change.structural_change
      group_id := 0
      start_line := lr.1
      end_line := lr.2 }
  let review := { review with risk_score := compute_risk_score review g.totalEntities }
  { review with risk_level := score_to_level review.risk_score }

/-- The changed entity ids (`analyze.rs`, `changed_entity_ids`; a
`HashSet` used only for membership). -/
def changedIds (changes : List SemanticChange) : List String :=
  changes.map (·.entity_id)

/-- Dependency edges contributed by one change (`analyze.rs` lines
100-109): dependencies first, then dependents, each filtered to changed
entities, and both oriented out of the current change. -/
def edgesForChange (g : GraphModel) (chIds : List String) (change : SemanticChange) :
    List (String × String) :=
  ((g.dependencies change.entity_id).filter (fun d => chIds.contains d)).map
      (fun d => (change.entity_id, d))
    ++ ((g.dependents change.entity_id).filter (fun d => chIds.contains d)).map
      (fun d => (change.entity_id, d))

/-- All dependency edges of the scoring loop, in loop order. -/
def buildDependencyEdges (g : GraphModel) (changes : List SemanticChange) :
    List (String × String) :=
  changes.flatMap (edgesForChange g (changedIds changes))

/-- The review ordering of `analyze.rs` line 114:
`sort_by(|a, b| b.risk_score.partial_cmp(&a.risk_score).unwrap())`
admits `a` before `b` iff `b.risk_score <= a.risk_score`. -/
def scoreGE (a b : EntityReview) : Prop :=
  b.risk_score ≤ a.risk_score

noncomputable instance : DecidableRel scoreGE := fun a b =>
  Real.decidableLE b.risk_score a.risk_score

instance : IsTotal EntityReview scoreGE :=
  ⟨fun a b => le_total b.risk_score a.risk_score⟩

instance : IsTrans EntityReview scoreGE :=
  ⟨fun _ _ _ hab hbc => le_trans hbc hab⟩

/-- The stable descending sort of the reviews (`analyze.rs` line 114;
Rust's `sort_by` is stable, as is insertion sort). -/
noncomputable def sortReviews (reviews : List EntityReview) : List EntityReview :=
  List.insertionSort scoreGE reviews

/-- The `entity_id -> group id` pairs collected into `entity_to_group`
(`analyze.rs` lines 118-121); a `HashMap` collect keeps the last pair
for a repeated key. -/
def entityToGroupPairs (groups : List ChangeGroup) : List (String × Nat) :=
  groups.flatMap (fun g => g.entity_ids.map (fun e => (e, g.id)))

/-- Lookup in `entity_to_group`. -/
def entityToGroup (groups : List ChangeGroup) (s : String) : Option Nat :=
  (((entityToGroupPairs groups).reverse).find? (fun p => p.1 == s)).map (·.2)

/-- Write each review's `group_id` from `entity_to_group` (`analyze.rs`
lines 123-127); a review whose id is absent keeps its initial 0. -/
def assignGroupIds (reviews : List EntityReview) (groups : List ChangeGroup) :
    List EntityReview :=
  reviews.map (fun r =>
    match entityToGroup groups r.entity_id with
    | some gid => { r with group_id := gid }
    | none => r)

/-- One step of the stats loop (`analyze.rs`, fn `compute_stats`). -/
def statsStep (acc : RiskBreakdown × ClassificationBreakdown × ChangeTypeBreakdown)
    (r : EntityReview) : RiskBreakdown × ClassificationBreakdown × ChangeTypeBreakdown :=
  let br := acc.1
  let bc := acc.2.1
  let bt := acc.2.2
  let br :=
    match r.risk_level with
    | .Critical => { br with critical := br.critical + 1 }
    | .High => { br with high := br.high + 1 }
    | .Medium => { br with medium := br.medium + 1 }
    | .Low => { br with low := br.low + 1 }
  let bc :=
    match r.classification with
    | .Text => { bc with text := bc.text + 1 }
    | .Syn => { bc with syn := bc.syn + 1 }
    | .Functional => { bc with functional := bc.functional + 1 }
    | _ => { bc with mixed := bc.mixed + 1 }
  let bt :=
    match r.change_type with
    | .Added => { bt with added := bt.added + 1 }
    | .Modified => { bt with modified := bt.modified + 1 }
    | .Deleted => { bt with deleted := bt.deleted + 1 }
    | .Moved => { bt with moved := bt.moved + 1 }
    | .Renamed => { bt with renamed := bt.renamed + 1 }
  (br, bc, bt)

/-- `compute_stats` (`analyze.rs`). -/
def compute_stats (reviews : List EntityReview) : ReviewStats :=
  let acc := reviews.foldl statsStep (⟨0, 0, 0, 0⟩, ⟨0, 0, 0, 0⟩, ⟨0, 0, 0, 0, 0⟩)
  { total_entities := reviews.length
    by_risk := acc.1
    by_classification := acc.2.1
    by_change_type := acc.2.2 }

/-- Phase 4 of `analyze` (`analyze.rs` lines 56-150): score and classify
each change, collect edges, sort, untangle (with the hash-map enumeration
order made explicit), assign group ids, and assemble the result.  The
`timing` counters of the source are wall-clock measurements and are not
part of the modelled result. -/
noncomputable def phase4 (g : GraphModel) (changes : List SemanticChange)
    (order : List Nat) : ReviewResult :=
  let reviews := changes.map (buildReview g)
  let dependency_edges := buildDependencyEdges g changes
  let reviews := sortReviews reviews
  let groups := untangleOrd reviews dependency_edges order
  let reviews := assignGroupIds reviews groups
  { entity_reviews := reviews
    groups := groups
    stats := compute_stats reviews
    changes := changes }

/-- `analyze`'s error type (`analyze.rs`, enum `AnalyzeError`). -/
inductive AnalyzeError where
  | Git (msg : String)
deriving DecidableEq, Repr

/-- `empty_result` (`analyze.rs`). -/
def emptyResult : ReviewResult :=
  { entity_reviews := []
    groups := []
    stats :=
      { total_entities := 0
        by_risk := ⟨0, 0, 0, 0⟩
        by_classification := ⟨0, 0, 0, 0⟩
        by_change_type := ⟨0, 0, 0, 0, 0⟩ }
    changes := [] }

/-- The source-file extension filter of `list_source_files`
(`analyze.rs` lines 217-236). -/
def isSourceFile (f : String) : Bool :=
  let f := f.toLower
  f.endsWith ".rs" || f.endsWith ".ts" || f.endsWith ".tsx" || f.endsWith ".js"
  || f.endsWith ".jsx" || f.endsWith ".py" || f.endsWith ".go" || f.endsWith ".java"
  || f.endsWith ".c" || f.endsWith ".cpp" || f.endsWith ".rb" || f.endsWith ".cs"
  || f.endsWith ".php"

/-- Outcomes of the external collaborators one `analyze` invocation
consults, abstracted as inputs: the git bridge (`GitBridge::open`,
`get_changed_files`, `git ls-files`), the `sem_core` semantic differ, the
built entity graph, and the `HashMap` enumeration order inside
`untangle`.  `F` is the (opaque) file-change record type of the git
bridge. -/
structure AnalyzeEnv (F : Type) where
  openResult : Except String Unit
  changedFiles : Except String (List F)
  computeDiff : List F → List SemanticChange
  lsFiles : Except String (List String)
  buildGraph : List String → GraphModel
  hashOrder : List Nat

/-- `analyze` (`analyze.rs` lines 17-151): the git steps fail with
`AnalyzeError::Git`, an empty change list or empty diff returns the empty
result, and otherwise phase 4 runs on the graph built from the filtered
`git ls-files` output. -/
noncomputable def analyzeCore {F : Type} (env : AnalyzeEnv F) :
    Except AnalyzeError ReviewResult :=
  match env.openResult with
  | .error e => .error (.Git e)
  | .ok _ =>
    match env.changedFiles with
    | .error e => .error (.Git e)
    | .ok file_changes =>
      if file_changes.isEmpty then .ok emptyResult
      else if (env.computeDiff file_changes).isEmpty then .ok emptyResult
      else
        match env.lsFiles with
        | .error e => .error (.Git e)
        | .ok files =>
          .ok (phase4 (env.buildGraph (files.filter isSourceFile))
            (env.computeDiff file_changes) env.hashOrder)

/-- A graph with no nodes and no edges, for concrete instantiations. -/
def trivialGraph : GraphModel :=
  { dependents := fun _ => []
    dependencies := fun _ => []
    impactCount := fun _ _ => 0
    lineRange := fun _ => none
    totalEntities := 0 }

/-- C7 (amended): with the scope resolved, an empty change list or an
empty semantic diff yields `Ok` with the well-formed empty result (empty
reviews and groups, all stats counters zero); and `AnalyzeError::Git`
arises only from a failed git operation — resolving the scope
(`GitBridge::open` / `get_changed_files`) or listing the tracked files
(`git ls-files`). -/
theorem c7_empty_ok_git_error_only_from_git {F : Type} (env : AnalyzeEnv F) :
    (env.openResult = .ok () → env.changedFiles = .ok ([] : List F) →
      analyzeCore env = .ok emptyResult)
    ∧ (∀ fcs : List F, env.openResult = .ok () → env.changedFiles = .ok fcs →
        env.computeDiff fcs = [] → analyzeCore env = .ok emptyResult)
    ∧ (emptyResult.entity_reviews = [] ∧ emptyResult.groups = []
        ∧ emptyResult.stats.total_entities = 0
        ∧ emptyResult.stats.by_risk = ⟨0, 0, 0, 0⟩
        ∧ emptyResult.stats.by_classification = ⟨0, 0, 0, 0⟩
        ∧ emptyResult.stats.by_change_type = ⟨0, 0, 0, 0, 0⟩)
    ∧ ∀ e : AnalyzeError, analyzeCore env = .error e →
        (∃ m, e = .Git m)
        ∧ (env.openResult.isOk = false ∨ env.changedFiles.isOk = false
            ∨ env.lsFiles.isOk = false) := by
  refine ⟨?_, ?_, ⟨rfl, rfl, rfl, rfl, rfl, rfl⟩, ?_⟩
  · intro h1 h2
    simp [analyzeCore, h1, h2]
  · intro fcs h1 h2 h3
    by_cases hf : fcs.isEmpty <;> simp [analyzeCore, h1, h2, h3, hf]
  · intro e he
    unfold analyzeCore at he
    split at he
    next m hop =>
      cases he
      exact ⟨⟨m, rfl⟩, Or.inl (by simp [hop, Except.isOk, Except.toBool])⟩
    next u hop =>
      split at he
      next m hcf =>
        cases he
        exact ⟨⟨m, rfl⟩, Or.inr (Or.inl (by simp [hcf, Except.isOk, Except.toBool]))⟩
      next fcs hcf =>
        split at he
        next hf => exact Except.noConfusion he
        next hf =>
          split at he
          next hd => exact Except.noConfusion he
          next hd =>
            split at he
            next m hls =>
              cases he
              exact ⟨⟨m, rfl⟩,
                Or.inr (Or.inr (by simp [hls, Except.isOk, Except.toBool]))⟩
            next files hls => exact Except.noConfusion he

/-- Environment whose scope resolves to no changed files. -/
def emptyDiffEnv : AnalyzeEnv Unit :=
  { openResult := .ok ()
    changedFiles := .ok []
    computeDiff := fun _ => []
    lsFiles := .ok []
    buildGraph := fun _ => trivialGraph
    hashOrder := [] }

/-- Witness for the amended C7: an empty change list yields the empty
result. -/
theorem c7_empty_ok_git_error_only_from_git_witness :
    analyzeCore emptyDiffEnv = .ok emptyResult :=
  (c7_empty_ok_git_error_only_from_git emptyDiffEnv).1 rfl rfl

/-- Environment in which the scope resolves and the diff is non-empty,
but `git ls-files` fails. -/
def lsFailEnv : AnalyzeEnv Unit :=
  { openResult := .ok ()
    changedFiles := .ok [()]
    computeDiff := fun _ => [absentBeforeChange]
    lsFiles := .error "ls-files failed"
    buildGraph := fun _ => trivialGraph
    hashOrder := [] }

/-- C7 counterexample: `analyze` returns `AnalyzeError::Git` in a run
whose git scope resolved fine (open and changed-file listing both
succeeded, diff non-empty) — the error comes from the later
`git ls-files` step, so `Git` is not returned only when the scope cannot
be resolved. -/
theorem c7_counterexample :
    analyzeCore lsFailEnv = .error (.Git "ls-files failed")
      ∧ lsFailEnv.openResult = .ok ()
      ∧ lsFailEnv.changedFiles = .ok [()] :=
  ⟨rfl, rfl, rfl⟩

lemma assignGroupIds_preserves_risk_score (groups : List ChangeGroup) (r : EntityReview) :
    (match entityToGroup groups r.entity_id with
      | some gid => { r with group_id := gid }
      | none => r).risk_score = r.risk_score := by
  cases entityToGroup groups r.entity_id <;> rfl

lemma sorted_assignGroupIds (reviews : List EntityReview) (groups : List ChangeGroup)
    (h : List.Sorted scoreGE reviews) :
    List.Sorted scoreGE (assignGroupIds reviews groups) := by
  unfold assignGroupIds
  rw [List.Sorted, List.pairwise_map]
  refine h.imp ?_
  intro a b hab
  show scoreGE _ _
  unfold scoreGE
  rw [assignGroupIds_preserves_risk_score, assignGroupIds_preserves_risk_score]
  exact hab

/-- C2 (amended): every `Ok` result of `analyze` has its `entity_reviews`
sorted by `risk_score` descending.  No `entity_id` tie-break is applied:
the sort of `analyze.rs` line 114 compares only `risk_score`, and being
stable it leaves equal-score reviews in the order their changes appeared
in the diff (see the counterexample). -/
theorem c2_reviews_sorted_by_score_desc {F : Type} (env : AnalyzeEnv F)
    (res : ReviewResult) (h : analyzeCore env = .ok res) :
    List.Sorted scoreGE res.entity_reviews := by
  unfold analyzeCore at h
  split at h
  next m hop => exact Except.noConfusion h
  next u hop =>
    split at h
    next m hcf => exact Except.noConfusion h
    next fcs hcf =>
      split at h
      next hf =>
        cases h
        exact List.sorted_nil
      next hf =>
        split at h
        next hd =>
          cases h
          exact List.sorted_nil
        next hd =>
          split at h
          next m hls => exact Except.noConfusion h
          next files hls =>
            cases h
            show List.Sorted scoreGE (assignGroupIds (sortReviews _) _)
            exact sorted_assignGroupIds _ _ (List.sorted_insertionSort scoreGE _)

/-- Witness for the amended C2: the empty-diff run's (empty) review list
is sorted. -/
theorem c2_reviews_sorted_by_score_desc_witness :
    List.Sorted scoreGE emptyResult.entity_reviews :=
  c2_reviews_sorted_by_score_desc emptyDiffEnv emptyResult rfl

/-- The ordering the claim asserts: score strictly descending, with
equal-score runs in lexicographically ascending `entity_id` order. -/
def sortedByScoreThenId (l : List EntityReview) : Prop :=
  l.Pairwise (fun a b =>
    b.risk_score < a.risk_score
    ∨ (a.risk_score = b.risk_score ∧ a.entity_id ≤ b.entity_id))

/-- Two changes identical except for their ids; both sides absent, so
they classify identically and score identically. -/
def tieChangeB : SemanticChange :=
  { id := "b"
    entity_id := "b"
    change_type := .Modified
    entity_type := "function"
    entity_name := "f"
    file_path := "m.rs"
    old_file_path := none
    before_content := none
    after_content := none
    commit_sha := none
    author := none
    timestamp := none
    structural_change := some true }

/-- The same change under entity id `a`, listed after `b` in the diff. -/
def tieChangeA : SemanticChange :=
  { tieChangeB with id := "a", entity_id := "a" }

/-- Environment whose diff produces the two tied changes, `b` first. -/
def tieEnv : AnalyzeEnv Unit :=
  { openResult := .ok ()
    changedFiles := .ok [()]
    computeDiff := fun _ => [tieChangeB, tieChangeA]
    lsFiles := .ok []
    buildGraph := fun _ => trivialGraph
    hashOrder := [0, 1] }

lemma not_sorted_of_tie (x y : EntityReview) (h : x.risk_score = y.risk_score)
    (hid : ¬ x.entity_id ≤ y.entity_id) : ¬ sortedByScoreThenId [x, y] := by
  intro hc
  have hp := (List.pairwise_cons.mp hc).1 y (List.mem_singleton.mpr rfl)
  rcases hp with hlt | ⟨_, hle⟩
  · rw [h] at hlt
    exact lt_irrefl _ hlt
  · exact hid hle

/-- The two tied reviews as the scoring loop produces them, `b` first. -/
noncomputable def tieReviews : List EntityReview :=
  [buildReview trivialGraph tieChangeB, buildReview trivialGraph tieChangeA]

/-- The groups the tied run produces. -/
noncomputable def tieGroups : List ChangeGroup :=
  untangleOrd tieReviews (buildDependencyEdges trivialGraph [tieChangeB, tieChangeA]) [0, 1]

/-- The first output review of the tied run. -/
noncomputable def tieAssignedB : EntityReview :=
  { buildReview trivialGraph tieChangeB with group_id := 0 }

/-- The second output review of the tied run. -/
noncomputable def tieAssignedA : EntityReview :=
  { buildReview trivialGraph tieChangeA with group_id := 1 }

/-- C2 counterexample: an `Ok` run of `analyze` whose two reviews have
equal risk scores but appear with entity ids `b` before `a` — the stable
score-only sort keeps diff order, so equal-score reviews are not in
ascending `entity_id` order. -/
theorem c2_counterexample :
    analyzeCore tieEnv = .ok (phase4 trivialGraph [tieChangeB, tieChangeA] [0, 1])
      ∧ ¬ sortedByScoreThenId
          (phase4 trivialGraph [tieChangeB, tieChangeA] [0, 1]).entity_reviews := by
  refine ⟨rfl, ?_⟩
  have hscoreEq : (buildReview trivialGraph tieChangeA).risk_score
      = (buildReview trivialGraph tieChangeB).risk_score := rfl
  have hsort : sortReviews tieReviews = tieReviews := by
    unfold sortReviews tieReviews
    simp only [List.insertionSort, List.orderedInsert]
    rw [if_pos (show scoreGE (buildReview trivialGraph tieChangeB)
      (buildReview trivialGraph tieChangeA) from le_of_eq hscoreEq)]
  have hL : (phase4 trivialGraph [tieChangeB, tieChangeA] [0, 1]).entity_reviews
      = assignGroupIds (sortReviews tieReviews)
          (untangleOrd (sortReviews tieReviews)
            (buildDependencyEdges trivialGraph [tieChangeB, tieChangeA]) [0, 1]) := rfl
  rw [hsort] at hL
  have hfinal : assignGroupIds tieReviews
      (untangleOrd tieReviews
        (buildDependencyEdges trivialGraph [tieChangeB, tieChangeA]) [0, 1])
      = [tieAssignedB, tieAssignedA] := rfl
  rw [hL, hfinal]
  refine not_sorted_of_tie tieAssignedB tieAssignedA rfl ?_
  show ¬ ("b" : String) ≤ "a"
  rw [String.le_iff_toList_le]
  decide

instance (reviews : List EntityReview) (edges : List (String × String))
    (order : List Nat) : Decidable (validOrder reviews edges order) :=
  List.decidablePerm order (ufRootList reviews edges)

lemma map_entityIds_renumber (l : List ChangeGroup) :
    (renumberGroups l).map (·.entity_ids) = l.map (·.entity_ids) := by
  unfold renumberGroups
  calc List.map (fun g : ChangeGroup => g.entity_ids)
        (List.map (fun p : Nat × ChangeGroup => { p.2 with id := p.1 }) l.enum)
      = List.map ((fun g : ChangeGroup => g.entity_ids)
          ∘ fun p : Nat × ChangeGroup => { p.2 with id := p.1 }) l.enum := List.map_map _ _ _
    _ = List.map ((fun g : ChangeGroup => g.entity_ids) ∘ Prod.snd) l.enum := rfl
    _ = List.map (fun g : ChangeGroup => g.entity_ids) (List.map Prod.snd l.enum) :=
        (List.map_map _ _ _).symm
    _ = List.map (fun g : ChangeGroup => g.entity_ids) l := by rw [List.enum_map_snd]

/-- Unpack the per-root group content: mapping `entity_ids` over the
groups built from an enumeration order forgets the attached group ids. -/
lemma map_entityIds_enum_mkGroup (reviews : List EntityReview)
    (edges : List (String × String)) (o : List Nat) :
    (o.enum.map (mkGroup reviews edges)).map (fun g => g.entity_ids)
      = o.map (fun r => (memberIdx reviews edges r).map
          (fun i => (reviews.getD i defaultReview).entity_id)) := by
  calc (o.enum.map (mkGroup reviews edges)).map (fun g => g.entity_ids)
      = List.map ((fun g : ChangeGroup => g.entity_ids) ∘ mkGroup reviews edges) o.enum :=
        List.map_map _ _ _
    _ = List.map ((fun r => (memberIdx reviews edges r).map
          (fun i => (reviews.getD i defaultReview).entity_id)) ∘ Prod.snd) o.enum := rfl
    _ = List.map (fun r => (memberIdx reviews edges r).map
          (fun i => (reviews.getD i defaultReview).entity_id)) (List.map Prod.snd o.enum) :=
        (List.map_map _ _ _).symm
    _ = _ := by rw [List.enum_map_snd]

/-- C6 (amended): the multiset of groups — their `entity_ids` lists — is
the same for any two `HashMap` enumeration orders, so group membership is
deterministic; but the order in which `untangle` emits groups (and hence
the renumbered ids) follows the enumeration order, which Rust's
randomized `HashMap` does not fix across invocations, so two runs need
not produce identical results (see the counterexample). -/
theorem c6_groups_deterministic_up_to_order (reviews : List EntityReview)
    (edges : List (String × String)) (o₁ o₂ : List Nat) (h : o₁.Perm o₂) :
    ((untangleOrd reviews edges o₁).map (·.entity_ids)).Perm
      ((untangleOrd reviews edges o₂).map (·.entity_ids)) := by
  unfold untangleOrd
  by_cases hre : reviews.isEmpty
  · simp [hre]
  · rw [if_neg hre, if_neg hre]
    rw [map_entityIds_renumber, map_entityIds_renumber]
    refine List.Perm.trans (List.Perm.map _ (List.perm_insertionSort sizeGE _))
      (List.Perm.trans ?_ (List.Perm.map _ (List.perm_insertionSort sizeGE _)).symm)
    rw [map_entityIds_enum_mkGroup, map_entityIds_enum_mkGroup]
    exact h.map _

/-- A changed entity with no edges, component of its own. -/
def soloReviewA : EntityReview :=
  { defaultReview with entity_id := "a", entity_name := "fa", file_path := "src/a.rs" }

/-- A second isolated changed entity. -/
def soloReviewB : EntityReview :=
  { defaultReview with entity_id := "b", entity_name := "fb", file_path := "src/b.rs" }

/-- Two reviews forming two singleton components. -/
def soloPair : List EntityReview := [soloReviewA, soloReviewB]

/-- Witness for the amended C6 at two concrete enumeration orders. -/
theorem c6_groups_deterministic_up_to_order_witness :
    ((untangleOrd soloPair [] [0, 1]).map (·.entity_ids)).Perm
      ((untangleOrd soloPair [] [1, 0]).map (·.entity_ids)) :=
  c6_groups_deterministic_up_to_order soloPair [] [0, 1] [1, 0] (by decide)

/-- C6 counterexample: both `[0, 1]` and `[1, 0]` are possible
`HashMap::into_values` enumerations of the two component roots (the map's
iteration order is randomized per process and fixed by no input), yet
they give different group lists: entity `a` lands in group 0 in one run
and in group 1 in the other.  With equal-size groups the stable size sort
keeps the enumeration order, so two `analyze` invocations on the same
input need not serialize identically. -/
theorem c6_counterexample :
    validOrder soloPair [] [0, 1] ∧ validOrder soloPair [] [1, 0]
      ∧ (untangleOrd soloPair [] [0, 1]).map (fun g => (g.id, g.entity_ids))
        ≠ (untangleOrd soloPair [] [1, 0]).map (fun g => (g.id, g.entity_ids)) := by
  decide

/-- Two-element union-find after `union(0, 1)`. -/
def ufSA : UnionFindState := ⟨[0, 0], [1, 0]⟩

/-- Two-element union-find after `union(1, 0)`. -/
def ufSB : UnionFindState := ⟨[1, 1], [0, 1]⟩

/-- The states a two-element union-find can reach under unions on
indices `0` and `1`. -/
def ufReach2 (u : UnionFindState) : Prop :=
  u = ufInit 2 ∨ u = ufSA ∨ u = ufSB

/-- Indices `0` and `1` share a root. -/
def merged2 (u : UnionFindState) : Prop :=
  ufFind u 0 = ufFind u 1

instance (u : UnionFindState) : Decidable (merged2 u) :=
  Nat.decEq (ufFind u 0) (ufFind u 1)

instance (u : UnionFindState) : Decidable (ufReach2 u) :=
  inferInstanceAs (Decidable (u = ufInit 2 ∨ u = ufSA ∨ u = ufSB))

lemma ufUnion_reach2 (u : UnionFindState) (hu : ufReach2 u) (a b : Nat)
    (ha : a < 2) (hb : b < 2) :
    ufReach2 (ufUnion u a b) ∧ (merged2 u → merged2 (ufUnion u a b)) := by
  interval_cases a <;> interval_cases b <;>
    rcases hu with h | h | h <;> subst h <;> decide

lemma ufUnion_merges2 (u : UnionFindState) (hu : ufReach2 u) :
    merged2 (ufUnion u 0 1) := by
  rcases hu with h | h | h <;> subst h <;> decide

lemma merged2_root_cases (u : UnionFindState) (hu : ufReach2 u) (hm : merged2 u) :
    u = ufSA ∨ u = ufSB := by
  rcases hu with h | h | h <;> subst h
  · exact absurd hm (by decide)
  · exact Or.inl rfl
  · exact Or.inr rfl

lemma reviewIdToIdx_pair_fst (A B : EntityReview) (h : A.entity_id ≠ B.entity_id) :
    reviewIdToIdx [A, B] A.entity_id = some 0 := by
  unfold reviewIdToIdx reviewIdPairs
  simp only [List.map_cons, List.map_nil, List.enum, List.enumFrom,
    List.reverse_cons, List.reverse_nil, List.nil_append, List.cons_append]
  rw [List.find?_cons_of_neg _ (by simp only [beq_iff_eq]; exact fun hh => h hh.symm),
    List.find?_cons_of_pos _ (by simp)]
  rfl

lemma reviewIdToIdx_pair_snd (A B : EntityReview) :
    reviewIdToIdx [A, B] B.entity_id = some 1 := by
  unfold reviewIdToIdx reviewIdPairs
  simp only [List.map_cons, List.map_nil, List.enum, List.enumFrom,
    List.reverse_cons, List.reverse_nil, List.nil_append, List.cons_append]
  rw [List.find?_cons_of_pos _ (by simp)]
  rfl

lemma reviewIdToIdx_pair_lt (A B : EntityReview) (s : String) (k : Nat)
    (h : reviewIdToIdx [A, B] s = some k) : k < 2 := by
  unfold reviewIdToIdx reviewIdPairs at h
  simp only [List.map_cons, List.map_nil, List.enum, List.enumFrom,
    List.reverse_cons, List.reverse_nil, List.nil_append, List.cons_append] at h
  cases hf : List.find? (fun p => p.1 == s) [(B.entity_id, 1), (A.entity_id, 0)] with
  | none => rw [hf] at h; exact absurd h (by simp)
  | some p =>
    rw [hf] at h
    have hmem := List.mem_of_find?_eq_some hf
    have hk : p.2 = k := by simpa using h
    rcases List.mem_cons.mp hmem with hp | hp
    · subst hp; omega
    · rcases List.mem_cons.mp hp with hp | hp
      · subst hp; omega
      · exact absurd hp (List.not_mem_nil p)

lemma ufStep_pair_reach (A B : EntityReview) (u : UnionFindState) (hu : ufReach2 u)
    (e : String × String) :
    ufReach2 (ufStep [A, B] u e) ∧ (merged2 u → merged2 (ufStep [A, B] u e)) := by
  unfold ufStep
  cases h1 : reviewIdToIdx [A, B] e.1 with
  | none => exact ⟨hu, id⟩
  | some a =>
    cases h2 : reviewIdToIdx [A, B] e.2 with
    | none => exact ⟨hu, id⟩
    | some b =>
      exact ufUnion_reach2 u hu a b
        (reviewIdToIdx_pair_lt A B e.1 a h1) (reviewIdToIdx_pair_lt A B e.2 b h2)

lemma ufStep_pair_merges (A B : EntityReview) (h : A.entity_id ≠ B.entity_id)
    (u : UnionFindState) (hu : ufReach2 u) :
    merged2 (ufStep [A, B] u (A.entity_id, B.entity_id)) := by
  unfold ufStep
  rw [reviewIdToIdx_pair_fst A B h, reviewIdToIdx_pair_snd A B]
  exact ufUnion_merges2 u hu

lemma foldl_pair_reach (A B : EntityReview) (es : List (String × String)) :
    ∀ u, ufReach2 u →
      ufReach2 (es.foldl (ufStep [A, B]) u)
        ∧ (merged2 u → merged2 (es.foldl (ufStep [A, B]) u)) := by
  induction es with
  | nil => exact fun u hu => ⟨hu, id⟩
  | cons e es ih =>
    intro u hu
    have hstep := ufStep_pair_reach A B u hu e
    have hrest := ih (ufStep [A, B] u e) hstep.1
    exact ⟨hrest.1, fun hm => hrest.2 (hstep.2 hm)⟩

lemma foldl_pair_merged (A B : EntityReview) (h : A.entity_id ≠ B.entity_id)
    (es : List (String × String)) :
    ∀ u, ufReach2 u → (A.entity_id, B.entity_id) ∈ es →
      ufReach2 (es.foldl (ufStep [A, B]) u) ∧ merged2 (es.foldl (ufStep [A, B]) u) := by
  induction es with
  | nil => exact fun u _ hmem => absurd hmem (List.not_mem_nil _)
  | cons e es ih =>
    intro u hu hmem
    have hstep := ufStep_pair_reach A B u hu e
    rcases List.mem_cons.mp hmem with he | hmem
    · subst he
      have hm := ufStep_pair_merges A B h u hu
      have hrest := foldl_pair_reach A B es _ hstep.1
      exact ⟨hrest.1, hrest.2 hm⟩
    · exact ih _ hstep.1 hmem

lemma buildUf_pair_merged (A B : EntityReview) (h : A.entity_id ≠ B.entity_id)
    (edges : List (String × String)) (hedge : (A.entity_id, B.entity_id) ∈ edges) :
    buildUf [A, B] edges = ufSA ∨ buildUf [A, B] edges = ufSB := by
  have hres := foldl_pair_merged A B h edges (ufInit 2) (Or.inl rfl) hedge
  exact merged2_root_cases _ hres.1 hres.2

lemma firstMismatch_self : ∀ l : List Char, firstMismatch l l = none := by
  intro l
  induction l with
  | nil => rfl
  | cons x xs ih => simp [firstMismatch, ih]

lemma commonStem_pair (f : String) : commonStem [f, f] = truncAfterLastSlash f := by
  unfold commonStem truncAfterLastSlash
  simp only [List.foldl_cons, List.foldl_nil, min_self, firstMismatch_self]
  rw [show f.length = f.data.length from rfl, List.take_length]

lemma truncAfterLastSlash_ne_empty (s : String) (h : s ≠ "") :
    truncAfterLastSlash s ≠ "" := by
  unfold truncAfterLastSlash
  cases hl : lastIdxOf '/' s.data with
  | none => exact h
  | some pos =>
    intro hc
    have hdata : s.data.take (pos + 1) = [] := congrArg String.data hc
    rcases List.take_eq_nil_iff.mp hdata with h0 | h0
    · exact Nat.succ_ne_zero pos h0
    · exact h (show s = "" from congrArg String.mk h0)

lemma untangle_pair_of_root (A B : EntityReview) (edges : List (String × String))
    (order : List Nat) (hfile : A.file_path = B.file_path) (hne : B.file_path ≠ "")
    (u : UnionFindState) (hu : buildUf [A, B] edges = u) (r : Nat)
    (hroots : ((List.range 2).map (ufFind u)).dedup = [r])
    (hmem : (List.range 2).filter (fun i => ufFind u i == r) = [0, 1])
    (hord : validOrder [A, B] edges order) :
    untangleOrd [A, B] edges order
      = [{ id := 0, label := truncAfterLastSlash B.file_path,
           entity_ids := [A.entity_id, B.entity_id] }] := by
  have hrl : ufRootList [A, B] edges = [r] := by
    unfold ufRootList ufRoot
    rw [hu]
    exact hroots
  have horder : order = [r] := by
    unfold validOrder at hord
    rw [hrl] at hord
    exact List.perm_singleton.mp hord
  have hmem' : memberIdx [A, B] edges r = [0, 1] := by
    unfold memberIdx ufRoot
    rw [hu]
    exact hmem
  have hgroup : mkGroup [A, B] edges (0, r)
      = { id := 0, label := truncAfterLastSlash B.file_path,
          entity_ids := [A.entity_id, B.entity_id] } := by
    unfold mkGroup
    rw [hmem']
    have hempt : (truncAfterLastSlash B.file_path).isEmpty = false := by
      rw [← Bool.not_eq_true, String.isEmpty_iff]
      exact truncAfterLastSlash_ne_empty _ hne
    simp only [List.map_cons, List.map_nil, List.getD_cons_zero, List.getD_cons_succ,
      List.length_cons, List.length_nil, List.headD_cons, hfile, commonStem_pair, hempt,
      Bool.false_eq_true, if_false]
    norm_num
  subst horder
  unfold untangleOrd
  rw [if_neg (by simp)]
  rw [show ([r].enum.map (mkGroup [A, B] edges)) = [mkGroup [A, B] edges (0, r)] from rfl,
    hgroup]
  rfl

/-- C8 (amended): for two reviews `A`, `B` with distinct entity ids (the
spec makes `entity_id` unique within a snapshot) sharing the same
non-empty `file_path`, and any edge list containing
`(A.entity_id, B.entity_id)`, `untangle` returns exactly one group,
holding both entity ids, labeled with the shared file path truncated just
after its last `/` (the whole path when it has no `/`), whatever
enumeration order the hash map produces. -/
theorem c8_two_reviews_one_group (A B : EntityReview) (edges : List (String × String))
    (order : List Nat) (hid : A.entity_id ≠ B.entity_id)
    (hfile : A.file_path = B.file_path) (hne : B.file_path ≠ "")
    (hedge : (A.entity_id, B.entity_id) ∈ edges)
    (hord : validOrder [A, B] edges order) :
    untangleOrd [A, B] edges order
      = [{ id := 0, label := truncAfterLastSlash B.file_path,
           entity_ids := [A.entity_id, B.entity_id] }] := by
  rcases buildUf_pair_merged A B hid edges hedge with hu | hu
  · exact untangle_pair_of_root A B edges order hfile hne ufSA hu 0
      (by decide) (by decide) hord
  · exact untangle_pair_of_root A B edges order hfile hne ufSB hu 1
      (by decide) (by decide) hord

/-- First of two same-file reviews for the C8 witness. -/
def pairedA : EntityReview :=
  { defaultReview with entity_id := "a", entity_name := "fa", file_path := "src/x.rs" }

/-- Second of two same-file reviews for the C8 witness. -/
def pairedB : EntityReview :=
  { defaultReview with entity_id := "b", entity_name := "fb", file_path := "src/x.rs" }

/-- Witness for the amended C8 at two concrete same-file reviews. -/
theorem c8_two_reviews_one_group_witness :
    untangleOrd [pairedA, pairedB] [("a", "b")] [0]
      = [{ id := 0, label := truncAfterLastSlash "src/x.rs",
           entity_ids := ["a", "b"] }] :=
  c8_two_reviews_one_group pairedA pairedB [("a", "b")] [0]
    (by decide) rfl (by decide) (by decide) (by decide)

/-- First of two reviews sharing the empty file path. -/
def emptyPathA : EntityReview :=
  { defaultReview with entity_id := "a", entity_name := "fa", file_path := "" }

/-- Second of two reviews sharing the empty file path. -/
def emptyPathB : EntityReview :=
  { defaultReview with entity_id := "b", entity_name := "fb", file_path := "" }

/-- C8 counterexample: two reviews sharing the (degenerate) empty file
path with the edge present do land in one group, but its label is the
fallback `"2 entities"`, not the file path truncated after its last `/`
(which is the empty string here) — the claim's label clause fails for an
empty shared path. -/
theorem c8_counterexample :
    validOrder [emptyPathA, emptyPathB] [("a", "b")] [0]
      ∧ (untangleOrd [emptyPathA, emptyPathB] [("a", "b")] [0]).map
          (fun g => (g.label, g.entity_ids)) = [("2 entities", ["a", "b"])]
      ∧ "2 entities" ≠ truncAfterLastSlash "" := by
  decide

/-- The entity id stored at review index `i`. -/
def entityIdAt (reviews : List EntityReview) (i : Nat) : String :=
  (reviews.getD i defaultReview).entity_id

lemma entityIdAt_eq_get (reviews : List EntityReview) (i : Nat) (hi : i < reviews.length) :
    entityIdAt reviews i = (reviews.get ⟨i, hi⟩).entity_id := by
  unfold entityIdAt
  rw [List.getD_eq_get reviews defaultReview hi]

lemma entityIdAt_inj (reviews : List EntityReview)
    (hids : (reviews.map (·.entity_id)).Nodup) :
    ∀ i, i < reviews.length → ∀ j, j < reviews.length →
      entityIdAt reviews i = entityIdAt reviews j → i = j := by
  intro i hi j hj h
  rw [entityIdAt_eq_get reviews i hi, entityIdAt_eq_get reviews j hj] at h
  have hmi : i < (reviews.map (·.entity_id)).length := by simpa using hi
  have hmj : j < (reviews.map (·.entity_id)).length := by simpa using hj
  have hget : (reviews.map (·.entity_id)).get ⟨i, hmi⟩
      = (reviews.map (·.entity_id)).get ⟨j, hmj⟩ := by
    rw [List.get_map, List.get_map]
    exact h
  have := List.nodup_iff_injective_get.mp hids hget
  exact congrArg Fin.val this

lemma memberIdx_lt (reviews : List EntityReview) (edges : List (String × String))
    (rt : Nat) : ∀ j ∈ memberIdx reviews edges rt, j < reviews.length := by
  intro j hj
  exact List.mem_range.mp (List.mem_filter.mp hj).1

lemma memberIdx_nodup (reviews : List EntityReview) (edges : List (String × String))
    (rt : Nat) : (memberIdx reviews edges rt).Nodup :=
  (List.nodup_range _).filter _

lemma memberIdx_ids_nodup (reviews : List EntityReview) (edges : List (String × String))
    (hids : (reviews.map (·.entity_id)).Nodup) (rt : Nat) :
    ((memberIdx reviews edges rt).map (fun i => entityIdAt reviews i)).Nodup := by
  refine List.Nodup.map_on ?_ (memberIdx_nodup reviews edges rt)
  intro x hx y hy hxy
  exact entityIdAt_inj reviews hids x (memberIdx_lt reviews edges rt x hx)
    y (memberIdx_lt reviews edges rt y hy) hxy

lemma mem_memberIdx_ids_iff (reviews : List EntityReview) (edges : List (String × String))
    (hids : (reviews.map (·.entity_id)).Nodup) (i₀ : Nat) (hi₀ : i₀ < reviews.length)
    (rt : Nat) :
    entityIdAt reviews i₀ ∈ (memberIdx reviews edges rt).map (fun i => entityIdAt reviews i)
      ↔ ufRoot reviews edges i₀ = rt := by
  constructor
  · intro hmem
    rcases List.mem_map.mp hmem with ⟨j, hj, hje⟩
    have hjlt : j < reviews.length := memberIdx_lt reviews edges rt j hj
    have hji : j = i₀ := entityIdAt_inj reviews hids j hjlt i₀ hi₀ hje
    subst hji
    have := (List.mem_filter.mp hj).2
    exact Nat.beq_eq_true_eq _ _ ▸ (by simpa using this)
  · intro hroot
    exact List.mem_map.mpr ⟨i₀,
      List.mem_filter.mpr ⟨List.mem_range.mpr hi₀, by simp [hroot]⟩, rfl⟩

lemma countP_entityIds_renumber (l : List ChangeGroup) (q : List String → Bool) :
    (renumberGroups l).countP (fun g => q g.entity_ids)
      = l.countP (fun g => q g.entity_ids) := by
  unfold renumberGroups
  calc List.countP (fun g : ChangeGroup => q g.entity_ids)
        (l.enum.map (fun p => { p.2 with id := p.1 }))
      = List.countP ((fun g : ChangeGroup => q g.entity_ids)
          ∘ fun p : Nat × ChangeGroup => { p.2 with id := p.1 }) l.enum :=
        List.countP_map _ _ _
    _ = List.countP ((fun g : ChangeGroup => q g.entity_ids) ∘ Prod.snd) l.enum := rfl
    _ = List.countP (fun g : ChangeGroup => q g.entity_ids) (List.map Prod.snd l.enum) :=
        (List.countP_map _ _ _).symm
    _ = _ := by rw [List.enum_map_snd]

/-- Counting groups through the enumeration: a predicate on the groups'
`entity_ids` is decided per component root. -/
lemma countP_untangleOrd (reviews : List EntityReview) (edges : List (String × String))
    (order : List Nat) (q : List String → Bool) (hne : reviews.isEmpty = false) :
    (untangleOrd reviews edges order).countP (fun g => q g.entity_ids)
      = order.countP (fun rt =>
          q ((memberIdx reviews edges rt).map (fun i => entityIdAt reviews i))) := by
  unfold untangleOrd
  rw [if_neg (by simp [hne])]
  rw [countP_entityIds_renumber]
  rw [(List.perm_insertionSort sizeGE _).countP_eq]
  calc List.countP (fun g : ChangeGroup => q g.entity_ids)
        (order.enum.map (mkGroup reviews edges))
      = List.countP ((fun g : ChangeGroup => q g.entity_ids)
          ∘ mkGroup reviews edges) order.enum := List.countP_map _ _ _
    _ = List.countP ((fun rt =>
          q ((memberIdx reviews edges rt).map (fun i => entityIdAt reviews i)))
          ∘ Prod.snd) order.enum := rfl
    _ = List.countP (fun rt =>
          q ((memberIdx reviews edges rt).map (fun i => entityIdAt reviews i)))
          (List.map Prod.snd order.enum) := (List.countP_map _ _ _).symm
    _ = _ := by rw [List.enum_map_snd]

lemma bool_eq_of_iff {a b : Bool} (h : a = true ↔ b = true) : a = b := by
  cases a <;> cases b <;> simp_all

/-- Each review's entity id lands in exactly one group of `untangleOrd`:
the component roots partition the review indices, distinct ids keep the
fibers apart, and a valid enumeration order lists each root once. -/
lemma countP_untangleOrd_eq_one (reviews : List EntityReview)
    (edges : List (String × String)) (order : List Nat)
    (hids : (reviews.map (·.entity_id)).Nodup)
    (hord : validOrder reviews edges order) :
    ∀ r ∈ reviews,
      (untangleOrd reviews edges order).countP
        (fun g => g.entity_ids.contains r.entity_id) = 1 := by
  intro r hr
  rcases List.mem_iff_get.mp hr with ⟨⟨i₀, hi₀⟩, hget⟩
  have hne : reviews.isEmpty = false := by
    cases reviews with
    | nil => exact absurd hr (List.not_mem_nil r)
    | cons a l => rfl
  have hrid : r.entity_id = entityIdAt reviews i₀ := by
    rw [entityIdAt_eq_get reviews i₀ hi₀, hget]
  rw [hrid, countP_untangleOrd reviews edges order
    (fun ids => ids.contains (entityIdAt reviews i₀)) hne]
  have hpt : ∀ rt ∈ order,
      (((memberIdx reviews edges rt).map (fun i => entityIdAt reviews i)).contains
        (entityIdAt reviews i₀))
      = (rt == ufRoot reviews edges i₀) := by
    intro rt _
    refine bool_eq_of_iff ?_
    rw [List.elem_iff, beq_iff_eq]
    rw [mem_memberIdx_ids_iff reviews edges hids i₀ hi₀ rt]
    exact eq_comm
  rw [List.countP_congr (fun rt hrt => by rw [hpt rt hrt])]
  have hcnt : List.countP (fun rt => rt == ufRoot reviews edges i₀) order
      = List.count (ufRoot reviews edges i₀) order := rfl
  rw [hcnt]
  unfold validOrder at hord
  rw [hord.count_eq]
  refine List.count_eq_one_of_mem (List.nodup_dedup _) ?_
  exact List.mem_dedup.mpr (List.mem_map.mpr ⟨i₀, List.mem_range.mpr hi₀, rfl⟩)

lemma contains_iff_mem {α : Type} [BEq α] [LawfulBEq α] (l : List α) (a : α) :
    l.contains a = true ↔ a ∈ l :=
  List.elem_iff

lemma not_mem_of_contains_false {α : Type} [BEq α] [LawfulBEq α] {l : List α} {a : α}
    (h : l.contains a = false) : a ∉ l := by
  intro hmem
  rw [(contains_iff_mem l a).mpr hmem] at h
  exact Bool.noConfusion h

lemma filter_flatMap {α β : Type} (l : List α) (f : α → List β) (p : β → Bool) :
    (l.flatMap f).filter p = l.flatMap (fun a => (f a).filter p) := by
  induction l with
  | nil => rfl
  | cons x xs ih => simp only [List.flatMap_cons, List.filter_append, ih]

lemma flatMap_nil_of_forall {α β : Type} (l : List α) (f : α → List β)
    (h : ∀ a ∈ l, f a = []) : l.flatMap f = [] := by
  induction l with
  | nil => rfl
  | cons x xs ih =>
    rw [List.flatMap_cons, h x (List.mem_cons_self x xs), List.nil_append]
    exact ih fun a ha => h a (List.mem_cons_of_mem x ha)

lemma group_pairs_filter (g : ChangeGroup) (rid : String) :
    (g.entity_ids.map (fun e => (e, g.id))).filter (fun p => p.1 == rid)
      = (List.replicate (g.entity_ids.count rid) rid).map (fun e => (e, g.id)) := by
  rw [List.filter_map]
  congr 1
  exact List.filter_beq g.entity_ids rid

lemma flatMap_filter_single (groups : List ChangeGroup) (rid : String) (g₀ : ChangeGroup)
    (hfilter : groups.filter (fun g => g.entity_ids.contains rid) = [g₀])
    (hle : ∀ g ∈ groups, g.entity_ids.count rid ≤ 1) :
    (entityToGroupPairs groups).filter (fun p => p.1 == rid) = [(rid, g₀.id)] := by
  unfold entityToGroupPairs
  rw [filter_flatMap]
  induction groups with
  | nil => exact absurd hfilter (by simp)
  | cons g gs ih =>
    rw [List.flatMap_cons]
    cases hp : g.entity_ids.contains rid with
    | false =>
      have hcnt : g.entity_ids.count rid = 0 :=
        List.count_eq_zero.mpr (not_mem_of_contains_false hp)
      rw [group_pairs_filter, hcnt, List.replicate_zero, List.map_nil, List.nil_append]
      rw [List.filter_cons_of_neg
        (fun hc => by rw [hp] at hc; exact Bool.noConfusion hc)] at hfilter
      exact ih hfilter fun g' hg' => hle g' (List.mem_cons_of_mem g hg')
    | true =>
      rw [@List.filter_cons_of_pos ChangeGroup
        (fun g' : ChangeGroup => g'.entity_ids.contains rid) g gs hp] at hfilter
      injection hfilter with hg hrest
      have hcnt : g.entity_ids.count rid = 1 := by
        have h1 : 0 < g.entity_ids.count rid :=
          List.count_pos_iff.mpr ((contains_iff_mem _ _).mp hp)
        have h2 := hle g (List.mem_cons_self g gs)
        omega
      rw [group_pairs_filter, hcnt]
      have htail : gs.flatMap
          (fun g => (g.entity_ids.map (fun e => (e, g.id))).filter (fun p => p.1 == rid))
          = [] := by
        refine flatMap_nil_of_forall _ _ ?_
        intro g' hg'
        have hnp : g'.entity_ids.contains rid = false := by
          have := List.filter_eq_nil.mp hrest g' hg'
          simpa using this
        have hz : g'.entity_ids.count rid = 0 :=
          List.count_eq_zero.mpr (not_mem_of_contains_false hnp)
        rw [group_pairs_filter, hz, List.replicate_zero, List.map_nil]
      rw [htail, hg]
      rfl

lemma find?_of_filter_single {α : Type} (l : List α) (p : α → Bool) (a : α)
    (h : l.filter p = [a]) : l.find? p = some a := by
  induction l with
  | nil => exact absurd h (by simp)
  | cons x xs ih =>
    cases hp : p x with
    | true =>
      rw [List.filter_cons_of_pos hp] at h
      injection h with hx _
      rw [List.find?_cons_of_pos _ hp, hx]
    | false =>
      rw [List.filter_cons_of_neg (by simp [hp])] at h
      rw [List.find?_cons_of_neg _ (by simp [hp])]
      exact ih h

lemma entityToGroup_of_unique (groups : List ChangeGroup) (rid : String)
    (g₀ : ChangeGroup)
    (hfilter : groups.filter (fun g => g.entity_ids.contains rid) = [g₀])
    (hle : ∀ g ∈ groups, g.entity_ids.count rid ≤ 1) :
    entityToGroup groups rid = some g₀.id := by
  unfold entityToGroup
  rw [find?_of_filter_single _ _ (rid, g₀.id)
    (by rw [List.filter_reverse, flatMap_filter_single groups rid g₀ hfilter hle]; rfl)]
  rfl

lemma filter_single_of_countP_one (groups : List ChangeGroup) (rid : String)
    (g : ChangeGroup) (h1 : groups.countP (fun g => g.entity_ids.contains rid) = 1)
    (hg : g ∈ groups) (hmem : rid ∈ g.entity_ids) :
    groups.filter (fun g => g.entity_ids.contains rid) = [g] := by
  have hlen : (groups.filter (fun g => g.entity_ids.contains rid)).length = 1 := by
    rw [← List.countP_eq_length_filter]
    exact h1
  rcases List.length_eq_one.mp hlen with ⟨g₀, hg₀⟩
  have hgin : g ∈ groups.filter (fun g => g.entity_ids.contains rid) :=
    List.mem_filter.mpr ⟨hg, List.elem_iff.mpr hmem⟩
  rw [hg₀] at hgin
  rw [← List.mem_singleton.mp hgin] at hg₀
  exact hg₀

/-- Every group `untangleOrd` emits carries the entity ids of one
component fiber. -/
lemma mem_untangleOrd_content (reviews : List EntityReview)
    (edges : List (String × String)) (order : List Nat) (g : ChangeGroup)
    (hg : g ∈ untangleOrd reviews edges order) :
    ∃ rt, g.entity_ids
      = (memberIdx reviews edges rt).map (fun i => entityIdAt reviews i) := by
  unfold untangleOrd at hg
  split at hg
  · exact absurd hg (List.not_mem_nil g)
  · unfold renumberGroups at hg
    rcases List.mem_map.mp hg with ⟨p, hp, hpe⟩
    have hsnd : p.2 ∈ List.map Prod.snd
        (List.insertionSort sizeGE (order.enum.map (mkGroup reviews edges))).enum :=
      List.mem_map_of_mem Prod.snd hp
    rw [List.enum_map_snd] at hsnd
    have hraw : p.2 ∈ order.enum.map (mkGroup reviews edges) :=
      ((List.perm_insertionSort sizeGE _).mem_iff).mp hsnd
    rcases List.mem_map.mp hraw with ⟨pr, _, hmk⟩
    refine ⟨pr.2, ?_⟩
    rw [← hpe]
    show p.2.entity_ids = _
    rw [← hmk]
    rfl

lemma count_le_one_in_group (reviews : List EntityReview)
    (edges : List (String × String)) (order : List Nat)
    (hids : (reviews.map (·.entity_id)).Nodup) (g : ChangeGroup)
    (hg : g ∈ untangleOrd reviews edges order) (rid : String) :
    g.entity_ids.count rid ≤ 1 := by
  rcases mem_untangleOrd_content reviews edges order g hg with ⟨rt, hct⟩
  rw [hct]
  exact List.nodup_iff_count_le_one.mp (memberIdx_ids_nodup reviews edges hids rt) rid

lemma untangleOrd_ids_consecutive (reviews : List EntityReview)
    (edges : List (String × String)) (order : List Nat) :
    (untangleOrd reviews edges order).map (·.id)
      = List.range (untangleOrd reviews edges order).length := by
  unfold untangleOrd
  split
  · rfl
  · unfold renumberGroups
    have hlen : ((List.insertionSort sizeGE (order.enum.map (mkGroup reviews edges))).enum.map
        (fun p => { p.2 with id := p.1 } : Nat × ChangeGroup → ChangeGroup)).length
        = (List.insertionSort sizeGE (order.enum.map (mkGroup reviews edges))).length := by
      rw [List.length_map, List.enum_length]
    rw [hlen]
    calc List.map (fun g : ChangeGroup => g.id)
          ((List.insertionSort sizeGE (order.enum.map (mkGroup reviews edges))).enum.map
            (fun p => { p.2 with id := p.1 }))
        = List.map ((fun g : ChangeGroup => g.id)
            ∘ fun p : Nat × ChangeGroup => { p.2 with id := p.1 })
            (List.insertionSort sizeGE (order.enum.map (mkGroup reviews edges))).enum :=
          List.map_map _ _ _
      _ = List.map Prod.fst
            (List.insertionSort sizeGE (order.enum.map (mkGroup reviews edges))).enum := rfl
      _ = _ := List.enum_map_fst _

/-- C10: in every `Ok` result of `analyze` whose reviews carry pairwise
distinct entity ids, the group ids are exactly `0 .. groups.len() - 1`,
every review's entity id appears in exactly one group, and each review's
`group_id` field names the group containing it.  `reviews` stands for the
sorted review list of the run, `order` for the hash map's component
enumeration (any valid one), exactly as `analyze` lines 114-127 feed
`untangle` and `entity_to_group`. -/
theorem c10_groups_partition_reviews (reviews : List EntityReview)
    (edges : List (String × String)) (order : List Nat)
    (hids : (reviews.map (·.entity_id)).Nodup)
    (hord : validOrder reviews edges order) :
    ((untangleOrd reviews edges order).map (·.id)
        = List.range (untangleOrd reviews edges order).length)
    ∧ (∀ r ∈ reviews,
        (untangleOrd reviews edges order).countP
          (fun g => g.entity_ids.contains r.entity_id) = 1)
    ∧ ∀ r' ∈ assignGroupIds reviews (untangleOrd reviews edges order),
        ∀ g ∈ untangleOrd reviews edges order,
          r'.entity_id ∈ g.entity_ids → r'.group_id = g.id := by
  refine ⟨untangleOrd_ids_consecutive reviews edges order,
    countP_untangleOrd_eq_one reviews edges order hids hord, ?_⟩
  intro r' hr' g hg hmem
  unfold assignGroupIds at hr'
  rcases List.mem_map.mp hr' with ⟨r, hr, hf⟩
  have hid' : r'.entity_id = r.entity_id := by
    rw [← hf]
    cases entityToGroup (untangleOrd reviews edges order) r.entity_id <;> rfl
  have h1 := countP_untangleOrd_eq_one reviews edges order hids hord r hr
  have hfilter := filter_single_of_countP_one (untangleOrd reviews edges order)
    r.entity_id g h1 hg (hid' ▸ hmem)
  have hle : ∀ g' ∈ untangleOrd reviews edges order,
      g'.entity_ids.count r.entity_id ≤ 1 :=
    fun g' hg' => count_le_one_in_group reviews edges order hids g' hg' r.entity_id
  have hetg := entityToGroup_of_unique (untangleOrd reviews edges order)
    r.entity_id g hfilter hle
  rw [← hf]
  show (match entityToGroup (untangleOrd reviews edges order) r.entity_id with
    | some gid => { r with group_id := gid }
    | none => r).group_id = g.id
  rw [hetg]

/-- Witness for C10 at two concrete isolated reviews. -/
theorem c10_groups_partition_reviews_witness :
    ((untangleOrd soloPair [] [0, 1]).map (·.id)
        = List.range (untangleOrd soloPair [] [0, 1]).length)
      ∧ (untangleOrd soloPair [] [0, 1]).countP
          (fun g => g.entity_ids.contains soloReviewA.entity_id) = 1 :=
  ⟨(c10_groups_partition_reviews soloPair [] [0, 1] (by decide) (by decide)).1,
    (c10_groups_partition_reviews soloPair [] [0, 1] (by decide) (by decide)).2.1
      soloReviewA (List.mem_cons_self _ _)⟩

end Inspect
